import Mathlib

/-
Shallow embedding of the bemailparts Go package (bemailparts.go, errors.go).
Strings are modelled as `List Char`; the five precompiled regular expressions
are modelled as decidable matchers with Go `regexp.MatchString` semantics
(unanchored search unless the pattern carries explicit anchors).
-/

deriving instance DecidableEq for Except

namespace Bemailparts

/-- One character of the class `[a-zA-Z0-9._%+-]` from `usernamePattern`. -/
def usernameChar (c : Char) : Bool :=
  c.isAlpha || c.isDigit || c == '.' || c == '_' || c == '%' || c == '+' || c == '-'

/-- One character of the class `[a-zA-Z0-9.-]` from `domainNamePattern`. -/
def domainNameChar (c : Char) : Bool :=
  c.isAlpha || c.isDigit || c == '.' || c == '-'

/-- One character of the class `[a-zA-Z]` from `domainTLDPattern`. -/
def tldChar (c : Char) : Bool :=
  c.isAlpha

/-- `usernameRegex.MatchString`: the pattern is start-anchored only, so a
string matches exactly when it starts with at least one username character. -/
def usernameMatch : List Char → Bool
  | [] => false
  | c :: _ => usernameChar c

/-- `domainNameRegex.MatchString`: the pattern is unanchored, so a string
matches exactly when it contains at least one domain-name character. -/
def domainNameMatch (s : List Char) : Bool :=
  s.any domainNameChar

/-- `domainTLDRegex.MatchString`: the pattern `[a-zA-Z]+$` is end-anchored
only, so a string matches exactly when its last character is alphabetic. -/
def tldMatch (s : List Char) : Bool :=
  match s.getLast? with
  | some c => tldChar c
  | none => false

/-- Search position inside `domainRegex`: a literal dot followed by a
nonempty all-alphabetic run that extends to the end of the string. -/
def dotThenTld : List Char → Bool
  | [] => false
  | c :: t => c == '.' && !t.isEmpty && t.all tldChar

/-- `domainRegex.MatchString`: pattern `[a-zA-Z0-9.-]+\.[a-zA-Z]+$`, start
unanchored, so a match exists exactly when some position holds a domain-name
character immediately followed by a dot and an alphabetic run to the end. -/
def domainMatch : List Char → Bool
  | [] => false
  | c :: rest => (domainNameChar c && dotThenTld rest) || domainMatch rest

/-- Continuation of the fully delimited domain inside `emailPattern`: after at
least one domain-name character, either more domain-name characters, or the
final dot and an alphabetic run to the end. -/
def domainTail : List Char → Bool
  | [] => false
  | c :: rest => dotThenTld (c :: rest) || (domainNameChar c && domainTail rest)

/-- The domain portion of `emailPattern` (between `@` and the end): one or
more domain-name characters, a dot, and a nonempty alphabetic run to the end. -/
def domainFullMatch : List Char → Bool
  | [] => false
  | c :: rest => domainNameChar c && domainTail rest

/-- Continuation of `emailPattern` after at least one username character:
either the `@` followed by the fully delimited domain, or another username
character. -/
def emailTail : List Char → Bool
  | [] => false
  | c :: rest => (c == '@' && domainFullMatch rest) || (usernameChar c && emailTail rest)

/-- `emailRegex.MatchString`: pattern
`^[a-zA-Z0-9._%+-]+@[a-zA-Z0-9.-]+\.[a-zA-Z]+$`, anchored at both ends, so it
is a full match of the whole string. -/
def emailMatch : List Char → Bool
  | [] => false
  | c :: rest => usernameChar c && emailTail rest

/-- The five error values of errors.go. -/
inductive EmailError where
  | ErrInvalidEmailFormat
  | ErrInvalidEmailUsernameFormat
  | ErrInvalidEmailDomainFormat
  | ErrInvalidEmailDomainNameFormat
  | ErrInvalidEmailDomainTLDFormat
deriving DecidableEq, Repr

/-- The `bEmailParts` struct: stored `username` and `domain` fields. -/
structure bEmailParts where
  username : List Char
  domain : List Char
deriving DecidableEq, Repr

/-- `generateEmail`: `fmt.Sprintf("%s%s%s", username, emailSeparator, domain)`. -/
def generateEmail (username domain : List Char) : List Char :=
  username ++ '@' :: domain

/-- `strings.HasPrefix(domainTLD, domainSeparator)`. -/
def startsWithDot : List Char → Bool
  | [] => false
  | c :: _ => c == '.'

/-- `generateDomain`: prepend a dot to the TLD when it lacks one, then join. -/
def generateDomain (domainName domainTLD : List Char) : List Char :=
  if startsWithDot domainTLD then domainName ++ domainTLD
  else domainName ++ '.' :: domainTLD

/-- `parts[0]` of `strings.Split(email, "@")`: the prefix before the first `@`. -/
def takeUntilAt (s : List Char) : List Char :=
  s.takeWhile fun c => !(c == '@')

/-- The remainder of the string after the first `@` (empty when there is none). -/
def afterFirstAt (s : List Char) : List Char :=
  (s.dropWhile fun c => !(c == '@')).drop 1

/-- `New`: gate on the full email pattern, then split at `@`; `parts[1]` of
`strings.Split` is the segment between the first and second `@` (the matched
string contains exactly one `@`, so this is everything after it). -/
def New (email : List Char) : Except EmailError bEmailParts :=
  if emailMatch email then
    .ok { username := takeUntilAt email, domain := takeUntilAt (afterFirstAt email) }
  else
    .error .ErrInvalidEmailFormat

/-- `NewFromUsernameAndDomain`: part-level checks, then delegate to `New`. -/
def NewFromUsernameAndDomain (username domain : List Char) : Except EmailError bEmailParts :=
  if !usernameMatch username then .error .ErrInvalidEmailUsernameFormat
  else if !domainMatch domain then .error .ErrInvalidEmailDomainFormat
  else New (generateEmail username domain)

/-- `NewFromFullParts`: part-level checks, synthesize the domain, delegate. -/
def NewFromFullParts (username domainName domainTLD : List Char) :
    Except EmailError bEmailParts :=
  if !domainNameMatch domainName then .error .ErrInvalidEmailDomainNameFormat
  else if !tldMatch domainTLD then .error .ErrInvalidEmailDomainTLDFormat
  else NewFromUsernameAndDomain username (generateDomain domainName domainTLD)

/-- `Email()`: reassemble `username@domain`. -/
def Email (e : bEmailParts) : List Char :=
  generateEmail e.username e.domain

/-- `Username()` accessor. -/
def Username (e : bEmailParts) : List Char :=
  e.username

/-- `Domain()` accessor. -/
def Domain (e : bEmailParts) : List Char :=
  e.domain

/-- `strings.Index(d, ".")`: index of the first dot. Go returns -1 when the
separator is absent and the slicing in `DomainName`/`DomainTLD` then panics;
here the absent case yields `d.length`, and the reachability invariant
(domains of constructed instances always contain a dot) keeps the two models
in agreement on every state the accessors are actually run on. -/
def dotIdx (d : List Char) : Nat :=
  d.findIdx fun c => c == '.'

/-- `DomainName()`: `e.domain[:strings.Index(e.domain, ".")]`. -/
def DomainName (e : bEmailParts) : List Char :=
  e.domain.take (dotIdx e.domain)

/-- `DomainTLD()`: `e.domain[strings.Index(e.domain, "."):]`. -/
def DomainTLD (e : bEmailParts) : List Char :=
  e.domain.drop (dotIdx e.domain)

/-- `strings.TrimPrefix(s, ".")`: drop one leading dot when present. -/
def trimLeadingDot : List Char → List Char
  | [] => []
  | c :: t => if c == '.' then t else c :: t

/-- `DomainTLDWithoutDot()`. -/
def DomainTLDWithoutDot (e : bEmailParts) : List Char :=
  trimLeadingDot (DomainTLD e)

/-- `SetUsername`: validate, then overwrite the username field; the second
component is the returned error (`none` on success). -/
def SetUsername (e : bEmailParts) (username : List Char) :
    bEmailParts × Option EmailError :=
  if !usernameMatch username then (e, some .ErrInvalidEmailUsernameFormat)
  else ({ e with username := username }, none)

/-- `SetDomain`: validate, then overwrite the domain field wholesale. -/
def SetDomain (e : bEmailParts) (domain : List Char) :
    bEmailParts × Option EmailError :=
  if !domainMatch domain then (e, some .ErrInvalidEmailDomainFormat)
  else ({ e with domain := domain }, none)

/-- `SetDomainName`: validate, then recompute the domain from the new name and
the current TLD. -/
def SetDomainName (e : bEmailParts) (domainName : List Char) :
    bEmailParts × Option EmailError :=
  if !domainNameMatch domainName then (e, some .ErrInvalidEmailDomainNameFormat)
  else ({ e with domain := generateDomain domainName (DomainTLD e) }, none)

/-- `SetDomainTLD`: validate, then recompute the domain from the current name
and the new TLD. -/
def SetDomainTLD (e : bEmailParts) (domainTLD : List Char) :
    bEmailParts × Option EmailError :=
  if !tldMatch domainTLD then (e, some .ErrInvalidEmailDomainTLDFormat)
  else ({ e with domain := generateDomain (DomainName e) domainTLD }, none)

/-- One setter call, keeping only the post-call state (an error leaves the
receiver untouched). -/
inductive Op where
  | opSetUsername (v : List Char)
  | opSetDomain (v : List Char)
  | opSetDomainName (v : List Char)
  | opSetDomainTLD (v : List Char)

/-- Apply one setter call to a state. -/
def applyOp (e : bEmailParts) : Op → bEmailParts
  | .opSetUsername v => (SetUsername e v).1
  | .opSetDomain v => (SetDomain e v).1
  | .opSetDomainName v => (SetDomainName e v).1
  | .opSetDomainTLD v => (SetDomainTLD e v).1

/-- Apply a sequence of setter calls in order. -/
def applyOps (e : bEmailParts) (ops : List Op) : bEmailParts :=
  ops.foldl applyOp e

/-- The domain contains at least one dot. -/
def hasDot (d : List Char) : Bool :=
  d.any fun c => c == '.'

/-! ### Boolean connective helpers -/

lemma orE {a b : Bool} (h : (a || b) = true) : a = true ∨ b = true := by
  rw [Bool.or_eq_true] at h
  exact h

lemma orI {a b : Bool} (h : a = true ∨ b = true) : (a || b) = true := by
  rw [Bool.or_eq_true]
  exact h

lemma andE {a b : Bool} (h : (a && b) = true) : a = true ∧ b = true := by
  rw [Bool.and_eq_true] at h
  exact h

lemma andI {a b : Bool} (h : a = true ∧ b = true) : (a && b) = true := by
  rw [Bool.and_eq_true]
  exact h

/-! ### Character-level facts -/

lemma usernameChar_ne_at {c : Char} (h : usernameChar c = true) : (c == '@') = false := by
  by_cases hc : c = '@'
  · subst hc; exact absurd h (by decide)
  · simp [hc]

lemma domainNameChar_ne_at {c : Char} (h : domainNameChar c = true) : (c == '@') = false := by
  by_cases hc : c = '@'
  · subst hc; exact absurd h (by decide)
  · simp [hc]

lemma tldChar_ne_at {c : Char} (h : tldChar c = true) : (c == '@') = false := by
  by_cases hc : c = '@'
  · subst hc; exact absurd h (by decide)
  · simp [hc]

/-! ### Splitting at the first `@` -/

lemma takeUntilAt_cons_ne {c : Char} (r : List Char) (h : (c == '@') = false) :
    takeUntilAt (c :: r) = c :: takeUntilAt r := by
  simp [takeUntilAt, List.takeWhile_cons, h]

lemma takeUntilAt_cons_at (r : List Char) : takeUntilAt ('@' :: r) = [] := by
  simp [takeUntilAt, List.takeWhile_cons]

lemma afterFirstAt_cons_ne {c : Char} (r : List Char) (h : (c == '@') = false) :
    afterFirstAt (c :: r) = afterFirstAt r := by
  simp [afterFirstAt, List.dropWhile_cons, h]

lemma afterFirstAt_cons_at (r : List Char) : afterFirstAt ('@' :: r) = r := by
  simp [afterFirstAt, List.dropWhile_cons]

lemma takeUntilAt_eq_self {l : List Char} (h : ∀ c ∈ l, (c == '@') = false) :
    takeUntilAt l = l := by
  induction l with
  | nil => rfl
  | cons c r ih =>
    rw [takeUntilAt_cons_ne r (h c (List.mem_cons_self c r))]
    exact congrArg (c :: ·) (ih fun x hx => h x (List.mem_cons_of_mem c hx))

lemma all_tld_no_at {l : List Char} (h : l.all tldChar = true) :
    ∀ c ∈ l, (c == '@') = false := by
  intro c hc
  exact tldChar_ne_at (List.all_eq_true.mp h c hc)

lemma domainTail_no_at {l : List Char} (h : domainTail l = true) :
    ∀ c ∈ l, (c == '@') = false := by
  induction l with
  | nil => intro c hc; simp at hc
  | cons c r ih =>
    rw [show domainTail (c :: r) =
        (dotThenTld (c :: r) || (domainNameChar c && domainTail r)) from rfl] at h
    rcases orE h with hA | hB
    · rw [show dotThenTld (c :: r) =
          (c == '.' && !r.isEmpty && r.all tldChar) from rfl] at hA
      obtain ⟨hcd, hr⟩ := andE hA
      obtain ⟨hdot, _⟩ := andE hcd
      intro x hx
      rcases List.mem_cons.mp hx with rfl | hx
      · have hxd : x = '.' := eq_of_beq hdot
        subst hxd; decide
      · exact all_tld_no_at hr x hx
    · obtain ⟨hc1, hr⟩ := andE hB
      intro x hx
      rcases List.mem_cons.mp hx with rfl | hx
      · exact domainNameChar_ne_at hc1
      · exact ih hr x hx

lemma domainFullMatch_no_at {l : List Char} (h : domainFullMatch l = true) :
    ∀ c ∈ l, (c == '@') = false := by
  cases l with
  | nil => intro c hc; simp at hc
  | cons c r =>
    rw [show domainFullMatch (c :: r) = (domainNameChar c && domainTail r) from rfl] at h
    obtain ⟨hc1, hr⟩ := andE h
    intro x hx
    rcases List.mem_cons.mp hx with rfl | hx
    · exact domainNameChar_ne_at hc1
    · exact domainTail_no_at hr x hx

lemma emailTail_split {l : List Char} (h : emailTail l = true) :
    domainFullMatch (takeUntilAt (afterFirstAt l)) = true ∧
    takeUntilAt l ++ '@' :: takeUntilAt (afterFirstAt l) = l := by
  induction l with
  | nil => simp [emailTail] at h
  | cons c r ih =>
    rw [show emailTail (c :: r) =
        ((c == '@' && domainFullMatch r) || (usernameChar c && emailTail r)) from rfl] at h
    rcases orE h with hA | hB
    · obtain ⟨hat, hd⟩ := andE hA
      have hc : c = '@' := eq_of_beq hat
      subst hc
      have hr : takeUntilAt r = r := takeUntilAt_eq_self (domainFullMatch_no_at hd)
      rw [takeUntilAt_cons_at, afterFirstAt_cons_at, hr]
      exact ⟨hd, rfl⟩
    · obtain ⟨hu, ht⟩ := andE hB
      have hne := usernameChar_ne_at hu
      obtain ⟨ih1, ih2⟩ := ih ht
      rw [takeUntilAt_cons_ne r hne, afterFirstAt_cons_ne r hne]
      exact ⟨ih1, by rw [List.cons_append, ih2]⟩

lemma emailMatch_split {l : List Char} (h : emailMatch l = true) :
    usernameMatch (takeUntilAt l) = true ∧
    domainFullMatch (takeUntilAt (afterFirstAt l)) = true ∧
    takeUntilAt l ++ '@' :: takeUntilAt (afterFirstAt l) = l := by
  cases l with
  | nil => simp [emailMatch] at h
  | cons c r =>
    rw [show emailMatch (c :: r) = (usernameChar c && emailTail r) from rfl] at h
    obtain ⟨hu, ht⟩ := andE h
    have hne := usernameChar_ne_at hu
    obtain ⟨h1, h2⟩ := emailTail_split ht
    rw [takeUntilAt_cons_ne r hne, afterFirstAt_cons_ne r hne]
    refine ⟨?_, h1, ?_⟩
    · rw [show usernameMatch (c :: takeUntilAt r) = usernameChar c from rfl]
      exact hu
    · rw [List.cons_append, h2]

/-! ### The anchored domain implies the unanchored domain pattern -/

lemma domainFull_to_domainMatch {l : List Char} (h : domainFullMatch l = true) :
    domainMatch l = true := by
  induction l with
  | nil => simp [domainFullMatch] at h
  | cons c r ih =>
    rw [show domainFullMatch (c :: r) = (domainNameChar c && domainTail r) from rfl] at h
    obtain ⟨hc1, hr⟩ := andE h
    rw [show domainMatch (c :: r) =
        ((domainNameChar c && dotThenTld r) || domainMatch r) from rfl]
    cases r with
    | nil => simp [domainTail] at hr
    | cons c2 r2 =>
      rw [show domainTail (c2 :: r2) =
          (dotThenTld (c2 :: r2) || (domainNameChar c2 && domainTail r2)) from rfl] at hr
      rcases orE hr with hd | hn
      · exact orI (Or.inl (andI ⟨hc1, hd⟩))
      · have hfull : domainFullMatch (c2 :: r2) = true := by
          rw [show domainFullMatch (c2 :: r2) = (domainNameChar c2 && domainTail r2) from rfl]
          exact hn
        exact orI (Or.inr (ih hfull))

/-! ### Dot-presence facts -/

lemma dotThenTld_hasDot {l : List Char} (h : dotThenTld l = true) : hasDot l = true := by
  cases l with
  | nil => simp [dotThenTld] at h
  | cons c r =>
    rw [show dotThenTld (c :: r) = (c == '.' && !r.isEmpty && r.all tldChar) from rfl] at h
    obtain ⟨hcd, _⟩ := andE h
    obtain ⟨hdot, _⟩ := andE hcd
    rw [show hasDot (c :: r) = ((c == '.') || hasDot r) from rfl]
    exact orI (Or.inl hdot)

lemma domainTail_hasDot {l : List Char} (h : domainTail l = true) : hasDot l = true := by
  induction l with
  | nil => simp [domainTail] at h
  | cons c r ih =>
    rw [show domainTail (c :: r) =
        (dotThenTld (c :: r) || (domainNameChar c && domainTail r)) from rfl] at h
    rcases orE h with hA | hB
    · exact dotThenTld_hasDot hA
    · obtain ⟨_, hr⟩ := andE hB
      rw [show hasDot (c :: r) = ((c == '.') || hasDot r) from rfl]
      exact orI (Or.inr (ih hr))

lemma domainFullMatch_hasDot {l : List Char} (h : domainFullMatch l = true) :
    hasDot l = true := by
  cases l with
  | nil => simp [domainFullMatch] at h
  | cons c r =>
    rw [show domainFullMatch (c :: r) = (domainNameChar c && domainTail r) from rfl] at h
    obtain ⟨_, hr⟩ := andE h
    rw [show hasDot (c :: r) = ((c == '.') || hasDot r) from rfl]
    exact orI (Or.inr (domainTail_hasDot hr))

lemma domainMatch_hasDot {l : List Char} (h : domainMatch l = true) : hasDot l = true := by
  induction l with
  | nil => simp [domainMatch] at h
  | cons c r ih =>
    rw [show domainMatch (c :: r) =
        ((domainNameChar c && dotThenTld r) || domainMatch r) from rfl] at h
    rw [show hasDot (c :: r) = ((c == '.') || hasDot r) from rfl]
    rcases orE h with hA | hB
    · obtain ⟨_, hd⟩ := andE hA
      exact orI (Or.inr (dotThenTld_hasDot hd))
    · exact orI (Or.inr (ih hB))

lemma hasDot_append (l₁ l₂ : List Char) (h : hasDot l₂ = true) :
    hasDot (l₁ ++ l₂) = true := by
  unfold hasDot
  rw [List.any_append]
  unfold hasDot at h
  rw [h, Bool.or_true]

lemma generateDomain_hasDot (dn dt : List Char) : hasDot (generateDomain dn dt) = true := by
  unfold generateDomain
  by_cases hs : startsWithDot dt = true
  · rw [if_pos hs]
    cases dt with
    | nil => simp [startsWithDot] at hs
    | cons c t =>
      apply hasDot_append
      rw [show hasDot (c :: t) = ((c == '.') || hasDot t) from rfl]
      exact orI (Or.inl hs)
  · rw [if_neg hs]
    apply hasDot_append
    rw [show hasDot ('.' :: dt) = (('.' == '.') || hasDot dt) from rfl]
    exact orI (Or.inl (by decide))

/-! ### First-dot index facts -/

lemma hasDot_dotIdx_lt {l : List Char} (h : hasDot l = true) : dotIdx l < l.length := by
  induction l with
  | nil => simp [hasDot] at h
  | cons c r ih =>
    rw [show hasDot (c :: r) = ((c == '.') || hasDot r) from rfl] at h
    unfold dotIdx
    rw [List.findIdx_cons]
    by_cases hc : (c == '.') = true
    · simp [hc]
    · rw [Bool.not_eq_true] at hc
      have hr : hasDot r = true := by
        rcases orE h with hA | hB
        · rw [hc] at hA; exact absurd hA (by decide)
        · exact hB
      have hlt := ih hr
      unfold dotIdx at hlt
      simp only [hc, cond_false, List.length_cons]
      exact Nat.succ_lt_succ hlt

lemma take_findIdx_eq_takeWhile (p : Char → Bool) (l : List Char) :
    l.take (l.findIdx p) = l.takeWhile fun c => !(p c) := by
  induction l with
  | nil => rfl
  | cons c r ih =>
    rw [List.findIdx_cons, List.takeWhile_cons]
    by_cases hp : p c = true
    · simp [hp]
    · rw [Bool.not_eq_true] at hp
      simp [hp, ih]

lemma drop_findIdx_eq_dropWhile (p : Char → Bool) (l : List Char) :
    l.drop (l.findIdx p) = l.dropWhile fun c => !(p c) := by
  induction l with
  | nil => rfl
  | cons c r ih =>
    rw [List.findIdx_cons, List.dropWhile_cons]
    by_cases hp : p c = true
    · simp [hp]
    · rw [Bool.not_eq_true] at hp
      simp [hp, ih]

lemma drop_dotIdx_dot {l : List Char} (h : hasDot l = true) :
    l.drop (dotIdx l) = '.' :: trimLeadingDot (l.drop (dotIdx l)) := by
  induction l with
  | nil => simp [hasDot] at h
  | cons c r ih =>
    unfold dotIdx
    rw [List.findIdx_cons]
    by_cases hc : (c == '.') = true
    · have hcd : c = '.' := eq_of_beq hc
      subst hcd
      simp [trimLeadingDot]
    · rw [Bool.not_eq_true] at hc
      rw [show hasDot (c :: r) = ((c == '.') || hasDot r) from rfl, hc] at h
      have hr : hasDot r = true := by simpa using h
      simp only [hc, cond_false, List.drop_succ_cons]
      exact ih hr

/-! ### Constructor inversions -/

lemma New_ok {s : List Char} {e : bEmailParts} (h : New s = .ok e) :
    emailMatch s = true ∧ e = ⟨takeUntilAt s, takeUntilAt (afterFirstAt s)⟩ := by
  unfold New at h
  by_cases hm : emailMatch s = true
  · rw [if_pos hm] at h
    cases h
    exact ⟨hm, rfl⟩
  · rw [if_neg hm] at h
    exact Except.noConfusion h

lemma New_ok_of_emailMatch {s : List Char} (h : emailMatch s = true) :
    New s = .ok ⟨takeUntilAt s, takeUntilAt (afterFirstAt s)⟩ := by
  unfold New
  rw [if_pos h]

lemma NewFromUsernameAndDomain_ok {u d : List Char} {e : bEmailParts}
    (h : NewFromUsernameAndDomain u d = .ok e) :
    New (generateEmail u d) = .ok e := by
  unfold NewFromUsernameAndDomain at h
  by_cases h1 : usernameMatch u = true
  · by_cases h2 : domainMatch d = true
    · rw [if_neg (by simp [h1]), if_neg (by simp [h2])] at h
      exact h
    · rw [Bool.not_eq_true] at h2
      rw [if_neg (by simp [h1]), if_pos (by simp [h2])] at h
      exact Except.noConfusion h
  · rw [Bool.not_eq_true] at h1
    rw [if_pos (by simp [h1])] at h
    exact Except.noConfusion h

lemma NewFromFullParts_ok {u dn dt : List Char} {e : bEmailParts}
    (h : NewFromFullParts u dn dt = .ok e) :
    NewFromUsernameAndDomain u (generateDomain dn dt) = .ok e := by
  unfold NewFromFullParts at h
  by_cases h1 : domainNameMatch dn = true
  · by_cases h2 : tldMatch dt = true
    · rw [if_neg (by simp [h1]), if_neg (by simp [h2])] at h
      exact h
    · rw [Bool.not_eq_true] at h2
      rw [if_neg (by simp [h1]), if_pos (by simp [h2])] at h
      exact Except.noConfusion h
  · rw [Bool.not_eq_true] at h1
    rw [if_pos (by simp [h1])] at h
    exact Except.noConfusion h

/-! ### Preservation across setter sequences -/

lemma applyOp_username {e : bEmailParts} (op : Op) (h : usernameMatch e.username = true) :
    usernameMatch (applyOp e op).username = true := by
  cases op with
  | opSetUsername v =>
    by_cases hv : usernameMatch v = true
    · simp [applyOp, SetUsername, hv]
    · rw [Bool.not_eq_true] at hv
      simp [applyOp, SetUsername, hv, h]
  | opSetDomain v =>
    simp only [applyOp, SetDomain]
    split <;> exact h
  | opSetDomainName v =>
    simp only [applyOp, SetDomainName]
    split <;> exact h
  | opSetDomainTLD v =>
    simp only [applyOp, SetDomainTLD]
    split <;> exact h

lemma applyOp_hasDot {e : bEmailParts} (op : Op) (h : hasDot e.domain = true) :
    hasDot (applyOp e op).domain = true := by
  cases op with
  | opSetUsername v =>
    simp only [applyOp, SetUsername]
    split <;> exact h
  | opSetDomain v =>
    by_cases hv : domainMatch v = true
    · simp only [applyOp, SetDomain]
      rw [if_neg (by simp [hv])]
      exact domainMatch_hasDot hv
    · rw [Bool.not_eq_true] at hv
      simp only [applyOp, SetDomain]
      rw [if_pos (by simp [hv])]
      exact h
  | opSetDomainName v =>
    simp only [applyOp, SetDomainName]
    split
    · exact h
    · exact generateDomain_hasDot v (DomainTLD e)
  | opSetDomainTLD v =>
    simp only [applyOp, SetDomainTLD]
    split
    · exact h
    · exact generateDomain_hasDot (DomainName e) v

lemma applyOps_username (ops : List Op) :
    ∀ e : bEmailParts, usernameMatch e.username = true →
      usernameMatch (applyOps e ops).username = true := by
  induction ops with
  | nil => intro e h; exact h
  | cons op ops ih =>
    intro e h
    rw [show applyOps e (op :: ops) = applyOps (applyOp e op) ops from rfl]
    exact ih _ (applyOp_username op h)

lemma applyOps_hasDot (ops : List Op) :
    ∀ e : bEmailParts, hasDot e.domain = true →
      hasDot (applyOps e ops).domain = true := by
  induction ops with
  | nil => intro e h; exact h
  | cons op ops ih =>
    intro e h
    rw [show applyOps e (op :: ops) = applyOps (applyOp e op) ops from rfl]
    exact ih _ (applyOp_hasDot op h)

/-! ### Claim theorems -/

/-- Claim C1, counterexample: starting from the valid instance constructed
from "a@b.com", `SetDomainTLD` accepts "!x" (the end-anchored TLD pattern only
requires the final character to be alphabetic), and the resulting stored
domain "b.!x" matches neither the domain grammar nor, reassembled with the
username, the full email grammar — refuting the invariant as stated. -/
theorem C1_counterexample :
    New ("a@b.com".toList) = .ok ⟨"a".toList, "b.com".toList⟩ ∧
    SetDomainTLD ⟨"a".toList, "b.com".toList⟩ ("!x".toList) =
      (⟨"a".toList, "b.!x".toList⟩, none) ∧
    domainMatch ("b.!x".toList) = false ∧
    emailMatch (generateEmail ("a".toList) ("b.!x".toList)) = false := by
  decide

/-- Claim C1, amended: after any successful constructor call the stored
username matches the username grammar, the stored domain matches the domain
grammar, and the reassembled `username@domain` matches the full email
grammar; across any subsequent sequence of setter calls only the username
clause is maintained. -/
theorem C1_invariant :
    (∀ s e, New s = .ok e →
      usernameMatch e.username = true ∧ domainMatch e.domain = true ∧
      emailMatch (Email e) = true) ∧
    (∀ u d e, NewFromUsernameAndDomain u d = .ok e →
      usernameMatch e.username = true ∧ domainMatch e.domain = true ∧
      emailMatch (Email e) = true) ∧
    (∀ u dn dt e, NewFromFullParts u dn dt = .ok e →
      usernameMatch e.username = true ∧ domainMatch e.domain = true ∧
      emailMatch (Email e) = true) ∧
    (∀ s e ops, New s = .ok e →
      usernameMatch (applyOps e ops).username = true) := by
  have main : ∀ s e, New s = .ok e →
      usernameMatch e.username = true ∧ domainMatch e.domain = true ∧
      emailMatch (Email e) = true := by
    intro s e h
    obtain ⟨hm, he⟩ := New_ok h
    obtain ⟨h1, h2, h3⟩ := emailMatch_split hm
    subst he
    refine ⟨h1, domainFull_to_domainMatch h2, ?_⟩
    show emailMatch (generateEmail (takeUntilAt s) (takeUntilAt (afterFirstAt s))) = true
    unfold generateEmail
    rw [h3]
    exact hm
  refine ⟨main, fun u d e h => main _ _ (NewFromUsernameAndDomain_ok h),
    fun u dn dt e h => main _ _ (NewFromUsernameAndDomain_ok (NewFromFullParts_ok h)), ?_⟩
  intro s e ops h
  exact applyOps_username ops e (main s e h).1

/-- Claim C1 witness: the amended invariant instantiated at "a@b.com". -/
theorem C1_invariant_witness :
    New ("a@b.com".toList) = .ok ⟨"a".toList, "b.com".toList⟩ ∧
    usernameMatch ("a".toList) = true ∧ domainMatch ("b.com".toList) = true ∧
    emailMatch (Email ⟨"a".toList, "b.com".toList⟩) = true := by
  have h : New ("a@b.com".toList) = .ok ⟨"a".toList, "b.com".toList⟩ := by decide
  have hi := C1_invariant.1 _ _ h
  exact ⟨h, hi.1, hi.2.1, hi.2.2⟩

/-- Claim C2: round trip — every string matching the full email grammar is
accepted by `New`, and `Email` of the resulting instance reproduces it. -/
theorem C2_roundtrip (s : List Char) (h : emailMatch s = true) :
    ∃ e, New s = .ok e ∧ Email e = s := by
  obtain ⟨_, _, h3⟩ := emailMatch_split h
  refine ⟨⟨takeUntilAt s, takeUntilAt (afterFirstAt s)⟩, New_ok_of_emailMatch h, ?_⟩
  show generateEmail (takeUntilAt s) (takeUntilAt (afterFirstAt s)) = s
  unfold generateEmail
  exact h3

/-- Claim C2 witness: the round trip instantiated at "john.doe@example.com". -/
theorem C2_roundtrip_witness :
    emailMatch ("john.doe@example.com".toList) = true ∧
    ∃ e, New ("john.doe@example.com".toList) = .ok e ∧
      Email e = "john.doe@example.com".toList :=
  ⟨by decide, C2_roundtrip _ (by decide)⟩

/-- Claim C3: each setter, on an argument its validation rejects, returns the
respective error paired with the untouched state, so every accessor yields its
pre-call value. -/
theorem C3_setter_atomicity (e : bEmailParts) (v : List Char) :
    (usernameMatch v = false →
      SetUsername e v = (e, some .ErrInvalidEmailUsernameFormat)) ∧
    (domainMatch v = false →
      SetDomain e v = (e, some .ErrInvalidEmailDomainFormat)) ∧
    (domainNameMatch v = false →
      SetDomainName e v = (e, some .ErrInvalidEmailDomainNameFormat)) ∧
    (tldMatch v = false →
      SetDomainTLD e v = (e, some .ErrInvalidEmailDomainTLDFormat)) ∧
    (usernameMatch v = false →
      Email (SetUsername e v).1 = Email e ∧
      Username (SetUsername e v).1 = Username e ∧
      Domain (SetUsername e v).1 = Domain e ∧
      DomainName (SetUsername e v).1 = DomainName e ∧
      DomainTLD (SetUsername e v).1 = DomainTLD e ∧
      DomainTLDWithoutDot (SetUsername e v).1 = DomainTLDWithoutDot e) ∧
    (domainMatch v = false →
      Email (SetDomain e v).1 = Email e ∧
      Username (SetDomain e v).1 = Username e ∧
      Domain (SetDomain e v).1 = Domain e ∧
      DomainName (SetDomain e v).1 = DomainName e ∧
      DomainTLD (SetDomain e v).1 = DomainTLD e ∧
      DomainTLDWithoutDot (SetDomain e v).1 = DomainTLDWithoutDot e) ∧
    (domainNameMatch v = false →
      Email (SetDomainName e v).1 = Email e ∧
      Username (SetDomainName e v).1 = Username e ∧
      Domain (SetDomainName e v).1 = Domain e ∧
      DomainName (SetDomainName e v).1 = DomainName e ∧
      DomainTLD (SetDomainName e v).1 = DomainTLD e ∧
      DomainTLDWithoutDot (SetDomainName e v).1 = DomainTLDWithoutDot e) ∧
    (tldMatch v = false →
      Email (SetDomainTLD e v).1 = Email e ∧
      Username (SetDomainTLD e v).1 = Username e ∧
      Domain (SetDomainTLD e v).1 = Domain e ∧
      DomainName (SetDomainTLD e v).1 = DomainName e ∧
      DomainTLD (SetDomainTLD e v).1 = DomainTLD e ∧
      DomainTLDWithoutDot (SetDomainTLD e v).1 = DomainTLDWithoutDot e) := by
  have hsu : usernameMatch v = false →
      SetUsername e v = (e, some .ErrInvalidEmailUsernameFormat) :=
    fun hv => by simp [SetUsername, hv]
  have hsd : domainMatch v = false →
      SetDomain e v = (e, some .ErrInvalidEmailDomainFormat) :=
    fun hv => by simp [SetDomain, hv]
  have hsn : domainNameMatch v = false →
      SetDomainName e v = (e, some .ErrInvalidEmailDomainNameFormat) :=
    fun hv => by simp [SetDomainName, hv]
  have hst : tldMatch v = false →
      SetDomainTLD e v = (e, some .ErrInvalidEmailDomainTLDFormat) :=
    fun hv => by simp [SetDomainTLD, hv]
  refine ⟨hsu, hsd, hsn, hst, fun hv => ?_, fun hv => ?_, fun hv => ?_, fun hv => ?_⟩
  · rw [hsu hv]; exact ⟨rfl, rfl, rfl, rfl, rfl, rfl⟩
  · rw [hsd hv]; exact ⟨rfl, rfl, rfl, rfl, rfl, rfl⟩
  · rw [hsn hv]; exact ⟨rfl, rfl, rfl, rfl, rfl, rfl⟩
  · rw [hst hv]; exact ⟨rfl, rfl, rfl, rfl, rfl, rfl⟩

/-- Claim C3 witness: `SetUsername` rejecting "!" on a concrete instance. -/
theorem C3_setter_atomicity_witness :
    usernameMatch ("!".toList) = false ∧
    SetUsername ⟨"a".toList, "b.com".toList⟩ ("!".toList) =
      (⟨"a".toList, "b.com".toList⟩, some .ErrInvalidEmailUsernameFormat) :=
  ⟨by decide, (C3_setter_atomicity _ _).1 (by decide)⟩

/-- Claim C4: for every instance whose domain contains a dot, `DomainName` is
the prefix of the domain before the first dot, `DomainTLD` the rest from that
dot on, and the decomposition equations hold; `New "a@b.co.id"` illustrates
the multi-label TLD case. -/
theorem C4_decomposition (e : bEmailParts) (h : hasDot e.domain = true) :
    Email e = Username e ++ '@' :: Domain e ∧
    DomainName e = e.domain.takeWhile (fun c => !(c == '.')) ∧
    DomainTLD e = e.domain.dropWhile (fun c => !(c == '.')) ∧
    Domain e = DomainName e ++ DomainTLD e ∧
    DomainTLD e = '.' :: DomainTLDWithoutDot e ∧
    (∃ e2, New ("a@b.co.id".toList) = .ok e2 ∧
      DomainName e2 = "b".toList ∧
      DomainTLD e2 = ".co.id".toList ∧
      DomainTLDWithoutDot e2 = "co.id".toList) := by
  refine ⟨rfl, ?_, ?_, ?_, ?_, ?_⟩
  · exact take_findIdx_eq_takeWhile _ _
  · exact drop_findIdx_eq_dropWhile _ _
  · exact (List.take_append_drop _ _).symm
  · exact drop_dotIdx_dot h
  · exact ⟨⟨"a".toList, "b.co.id".toList⟩, by decide, by decide, by decide, by decide⟩

/-- Claim C4 witness: the decomposition instantiated at the instance from
"test.username@test-domain.com". -/
theorem C4_decomposition_witness :
    hasDot ("test-domain.com".toList) = true ∧
    Domain ⟨"test.username".toList, "test-domain.com".toList⟩ =
      DomainName ⟨"test.username".toList, "test-domain.com".toList⟩ ++
      DomainTLD ⟨"test.username".toList, "test-domain.com".toList⟩ :=
  ⟨by decide, (C4_decomposition _ (by decide)).2.2.2.1⟩

/-- Claim C5: the empty string, a string with no `@`, and a domain with no
TLD dot are all rejected by `New` with the invalid-email-format error. -/
theorem C5_rejections :
    New ("".toList) = .error .ErrInvalidEmailFormat ∧
    New ("plainstring".toList) = .error .ErrInvalidEmailFormat ∧
    New ("a@b".toList) = .error .ErrInvalidEmailFormat := by
  decide

/-- Claim C6: `generateDomain` prepends a dot exactly when the TLD lacks one,
so `NewFromFullParts` accepts both "com" and ".com" and produces the same
instance with email "u@example.com". -/
theorem C6_tld_normalization :
    (∀ dn dt, startsWithDot dt = false → generateDomain dn dt = dn ++ '.' :: dt) ∧
    (∀ dn dt, startsWithDot dt = true → generateDomain dn dt = dn ++ dt) ∧
    NewFromFullParts ("u".toList) ("example".toList) ("com".toList) =
      .ok ⟨"u".toList, "example.com".toList⟩ ∧
    NewFromFullParts ("u".toList) ("example".toList) (".com".toList) =
      .ok ⟨"u".toList, "example.com".toList⟩ ∧
    Email ⟨"u".toList, "example.com".toList⟩ = "u@example.com".toList := by
  refine ⟨?_, ?_, by decide, by decide, by decide⟩
  · intro dn dt h
    unfold generateDomain
    rw [if_neg (by simp [h])]
  · intro dn dt h
    unfold generateDomain
    rw [if_pos h]

/-- Claim C6 witness: the dotless branch of the normalization at "com". -/
theorem C6_tld_normalization_witness :
    startsWithDot ("com".toList) = false ∧
    generateDomain ("example".toList) ("com".toList) =
      "example".toList ++ '.' :: "com".toList :=
  ⟨by decide, C6_tld_normalization.1 _ _ (by decide)⟩

/-- Claim C7: `SetDomainTLD` validates against the TLD pattern, failing with
the TLD-format error; on success it stores `DomainName e` joined with the
dot-normalized argument; the concrete scenario from
"test.username@test-domain.com" with ".co.id" follows. -/
theorem C7_setDomainTLD (e : bEmailParts) (v : List Char) :
    (tldMatch v = false →
      SetDomainTLD e v = (e, some .ErrInvalidEmailDomainTLDFormat)) ∧
    (tldMatch v = true →
      SetDomainTLD e v = ({ e with domain := generateDomain (DomainName e) v }, none)) ∧
    (tldMatch v = true → startsWithDot v = false →
      (SetDomainTLD e v).1.domain = DomainName e ++ '.' :: v) ∧
    (tldMatch v = true → startsWithDot v = true →
      (SetDomainTLD e v).1.domain = DomainName e ++ v) ∧
    (∃ e0, New ("test.username@test-domain.com".toList) = .ok e0 ∧
      (SetDomainTLD e0 (".co.id".toList)).2 = none ∧
      Email (SetDomainTLD e0 (".co.id".toList)).1 =
        "test.username@test-domain.co.id".toList) := by
  refine ⟨fun hv => by simp [SetDomainTLD, hv],
    fun hv => by simp [SetDomainTLD, hv], ?_, ?_, ?_⟩
  · intro hv hs
    simp [SetDomainTLD, hv, generateDomain, hs]
  · intro hv hs
    simp [SetDomainTLD, hv, generateDomain, hs]
  · exact ⟨⟨"test.username".toList, "test-domain.com".toList⟩,
      by decide, by decide, by decide⟩

/-- Claim C7 witness: `SetDomainTLD` with "org" on a concrete instance. -/
theorem C7_setDomainTLD_witness :
    tldMatch ("org".toList) = true ∧
    SetDomainTLD ⟨"a".toList, "b.com".toList⟩ ("org".toList) =
      (⟨"a".toList, "b.org".toList⟩, none) := by
  have h := (C7_setDomainTLD ⟨"a".toList, "b.com".toList⟩ ("org".toList)).2.1 (by decide)
  exact ⟨by decide, by rw [h]; decide⟩

/-- Claim C8: `SetDomainName` validates against the domain-name pattern,
failing with the domain-name-format error; on success it stores the new name
joined with the current TLD (whose leading dot, present on every instance
whose domain contains a dot, is preserved) and leaves the username unchanged. -/
theorem C8_setDomainName (e : bEmailParts) (v : List Char) :
    (domainNameMatch v = false →
      SetDomainName e v = (e, some .ErrInvalidEmailDomainNameFormat)) ∧
    (domainNameMatch v = true →
      SetDomainName e v = ({ e with domain := generateDomain v (DomainTLD e) }, none)) ∧
    (domainNameMatch v = true →
      (SetDomainName e v).1.username = e.username) ∧
    (domainNameMatch v = true → hasDot e.domain = true →
      (SetDomainName e v).1.domain = v ++ DomainTLD e) := by
  refine ⟨fun hv => by simp [SetDomainName, hv],
    fun hv => by simp [SetDomainName, hv],
    fun hv => by simp [SetDomainName, hv], ?_⟩
  intro hv hd
  have hsw : startsWithDot (DomainTLD e) = true := by
    rw [show DomainTLD e = e.domain.drop (dotIdx e.domain) from rfl, drop_dotIdx_dot hd]
    simp [startsWithDot]
  have h2 : SetDomainName e v = ({ e with domain := generateDomain v (DomainTLD e) }, none) := by
    simp [SetDomainName, hv]
  rw [h2]
  show generateDomain v (DomainTLD e) = v ++ DomainTLD e
  unfold generateDomain
  rw [if_pos hsw]

/-- Claim C8 witness: `SetDomainName` with "newexample" on a concrete
instance, preserving the ".com" TLD. -/
theorem C8_setDomainName_witness :
    domainNameMatch ("newexample".toList) = true ∧
    hasDot ("b.com".toList) = true ∧
    (SetDomainName ⟨"a".toList, "b.com".toList⟩ ("newexample".toList)).1.domain =
      "newexample".toList ++ DomainTLD ⟨"a".toList, "b.com".toList⟩ :=
  ⟨by decide, by decide, (C8_setDomainName _ _).2.2.2 (by decide) (by decide)⟩

/-- Claim C9: every state reachable from a successful constructor call through
any sequence of setter calls has a domain containing a dot, so the first-dot
index used by `DomainName` and `DomainTLD` is strictly within bounds. -/
theorem C9_domain_always_has_dot (ops : List Op) :
    (∀ s e, New s = .ok e →
      hasDot (applyOps e ops).domain = true ∧
      dotIdx (applyOps e ops).domain < (applyOps e ops).domain.length) ∧
    (∀ u d e, NewFromUsernameAndDomain u d = .ok e →
      hasDot (applyOps e ops).domain = true ∧
      dotIdx (applyOps e ops).domain < (applyOps e ops).domain.length) ∧
    (∀ u dn dt e, NewFromFullParts u dn dt = .ok e →
      hasDot (applyOps e ops).domain = true ∧
      dotIdx (applyOps e ops).domain < (applyOps e ops).domain.length) := by
  have main : ∀ s e, New s = .ok e →
      hasDot (applyOps e ops).domain = true ∧
      dotIdx (applyOps e ops).domain < (applyOps e ops).domain.length := by
    intro s e h
    obtain ⟨hm, he⟩ := New_ok h
    obtain ⟨_, h2, _⟩ := emailMatch_split hm
    subst he
    have hd : hasDot (applyOps ⟨takeUntilAt s, takeUntilAt (afterFirstAt s)⟩ ops).domain = true :=
      applyOps_hasDot ops ⟨takeUntilAt s, takeUntilAt (afterFirstAt s)⟩ (domainFullMatch_hasDot h2)
    exact ⟨hd, hasDot_dotIdx_lt hd⟩
  exact ⟨main, fun u d e h => main _ _ (NewFromUsernameAndDomain_ok h),
    fun u dn dt e h => main _ _ (NewFromUsernameAndDomain_ok (NewFromFullParts_ok h))⟩

/-- Claim C9 witness: the dot invariant after constructing "a@b.com" and one
`SetDomainTLD` call. -/
theorem C9_domain_always_has_dot_witness :
    New ("a@b.com".toList) = .ok ⟨"a".toList, "b.com".toList⟩ ∧
    hasDot (applyOps ⟨"a".toList, "b.com".toList⟩
      [Op.opSetDomainTLD ("org".toList)]).domain = true := by
  have h : New ("a@b.com".toList) = .ok ⟨"a".toList, "b.com".toList⟩ := by decide
  exact ⟨h, ((C9_domain_always_has_dot [Op.opSetDomainTLD ("org".toList)]).1 _ _ h).1⟩

/-- Claim C10: the start-anchored username check accepts "a!" and the domain
check accepts "b.com", yet the synthesized "a!@b.com" fails the fully
anchored email gate, so `NewFromUsernameAndDomain` fails with the
invalid-email-format error rather than a part-specific one. -/
theorem C10_part_checks_insufficient :
    usernameMatch ("a!".toList) = true ∧
    domainMatch ("b.com".toList) = true ∧
    NewFromUsernameAndDomain ("a!".toList) ("b.com".toList) =
      .error .ErrInvalidEmailFormat ∧
    emailMatch ("a!@b.com".toList) = false := by
  decide

end Bemailparts
